import Mathlib

/-!
Verification of the IRMaSim workload-manager `Environment` module
(`src/irmasim/workload_manager/Environment.py`).

The Python source is shallowly embedded below. Numeric quantities (job
attributes, limits, times, energies, scores, observation entries) are
modelled as rationals; numpy arrays as lists of rationals; Python dicts
(ordered) as association lists; Python `None` state as `Option`;
`KeyError`-raising dict lookups as `Except String`.
-/

namespace IRMaSim

/-- A pending job, as read by the environment (external entity).
Fields mirror the attributes accessed in the source:
`submit_time`, `req_time`, `resources`, `memory`, `memory_vol`. -/
structure Job where
  submit_time : ℚ
  req_time : ℚ
  resources : ℚ
  memory : ℚ
  memory_vol : ℚ
deriving DecidableEq

/-- A hardware core: whether it currently runs a task, and its power fields. -/
structure Core where
  task : Option ℕ
  static_power : ℚ
  dynamic_power : ℚ
deriving DecidableEq

/-- A processor: `core.parent` in the source. -/
structure Processor where
  gflops_per_core : ℚ
  current_mem_bw : ℚ
  children : List Core
deriving DecidableEq

/-- A node: `core.parent.parent` in the source. -/
structure NodeT where
  current_mem : ℚ
deriving DecidableEq

/-- Tags for the six job-selection policies, in registry-declaration order
(source lines 111-118). -/
inductive JobSel where
  | random
  | first
  | shortest
  | smallest
  | low_mem
  | low_mem_ops
deriving DecidableEq

/-- Tags for the six core-selection policies, in registry-declaration order
(source lines 120-128). -/
inductive CoreSel where
  | random
  | high_gflops
  | high_cores
  | high_mem
  | high_mem_bw
  | low_power
deriving DecidableEq

/-- The ordered job-selection registry `self.job_selections` (lines 111-118):
names in declaration order, each mapped to its tag. -/
def job_selections : List (String × JobSel) :=
  [("random", .random), ("first", .first), ("shortest", .shortest),
   ("smallest", .smallest), ("low_mem", .low_mem), ("low_mem_ops", .low_mem_ops)]

/-- The ordered core-selection registry `self.core_selections` (lines 120-128). -/
def core_selections : List (String × CoreSel) :=
  [("random", .random), ("high_gflops", .high_gflops), ("high_cores", .high_cores),
   ("high_mem", .high_mem), ("high_mem_bw", .high_mem_bw), ("low_power", .low_power)]

/-- The job scoring function attached to each registry entry
(`None` models Python `None`, meaning uniform-random selection). -/
def jobScore : JobSel → Option (Job → ℚ)
  | .random => none
  | .first => some (fun job => job.submit_time)
  | .shortest => some (fun job => job.req_time)
  | .smallest => some (fun job => job.resources)
  | .low_mem => some (fun job => job.memory)
  | .low_mem_ops => some (fun job => job.memory_vol)

/-- The core scoring function attached to each registry entry.  The lambdas of
the source close over a core together with its parent processor and node; we
pass those explicitly.  `high_cores` is line 123-124 of the source:
`- len([c for c in core.parent.children if c.task is not None])`. -/
def coreScore : CoreSel → NodeT → Processor → Core → Option ℚ
  | .random, _, _, _ => none
  | .high_gflops, _, p, _ => some (- p.gflops_per_core)
  | .high_cores, _, p, _ =>
      some (-((p.children.filter (fun c => c.task.isSome)).length : ℚ))
  | .high_mem, n, _, _ => some (- n.current_mem)
  | .high_mem_bw, _, p, _ => some p.current_mem_bw
  | .low_power, _, _, c => some (c.static_power + c.dynamic_power)

/-- The score the class docstring (line 69) and the spec (§4.1) prescribe for
`high_cores`: the negated count of AVAILABLE cores (cores with no task) in the
owning processor, so that min-seeking selection favors the processor with the
most available cores. -/
def high_cores_doc_score (p : Processor) : ℚ :=
  -((p.children.filter (fun c => c.task.isNone)).length : ℚ)

/-- The `actions` block of the configuration (`env_options['actions']`).
`selection` flattens the ordered list of single-key dicts of the source into
an ordered association list: job-selector name paired with its ordered list
of core-selector names. -/
structure ActionsConfig where
  selection : List (String × List String)
  void : Bool
deriving DecidableEq

/-- The `env_options` configuration block read by `Environment.__init__`. -/
structure EnvConfig where
  actions : Option ActionsConfig
  observation : Option String
  objective : String
  queue_sensitivity : ℚ
deriving DecidableEq

/-- `simulator.job_limits` (read in `_base_observation`, lines 222-225). -/
structure JobLimits where
  max_time : ℚ
  max_core : ℚ
  max_mem : ℚ
  max_mem_vol : ℚ
deriving DecidableEq

/-- Python dict lookup `registry[key]`: `KeyError` becomes `Except.error`. -/
def lookupKey {α : Type} (l : List (String × α)) (k : String) : Except String α :=
  match l.find? (fun p => p.1 == k) with
  | some p => .ok p.2
  | none => .error k

/-- Innermost loop of the explicit-configuration branch (lines 134-137): for
one selection entry, iterate its core-selector names; BOTH registry lookups
(`self.job_selections[job_sel]` then `self.core_selections[core_sel]`, line
136) happen inside this innermost loop, so an empty core-selector list
performs no lookup at all and cannot fail, whatever the job-selector name. -/
def buildPairsFor (js : String) : List String → Except String (List (JobSel × CoreSel))
  | [] => .ok []
  | cs :: rest =>
      match lookupKey job_selections js with
      | .error e => .error e
      | .ok j =>
          match lookupKey core_selections cs with
          | .error e => .error e
          | .ok c =>
              match buildPairsFor js rest with
              | .error e => .error e
              | .ok more => .ok ((j, c) :: more)

/-- Outer loops of the explicit-configuration branch (lines 132-137). -/
def buildPairs : List (String × List String) → Except String (List (JobSel × CoreSel))
  | [] => .ok []
  | (js, css) :: rest =>
      match buildPairsFor js css with
      | .error e => .error e
      | .ok pairs =>
          match buildPairs rest with
          | .error e => .error e
          | .ok more => .ok (pairs ++ more)

/-- The six job selectors in registry-declaration order
(`self.job_selections.values()`). -/
def allJobSels : List JobSel :=
  [.random, .first, .shortest, .smallest, .low_mem, .low_mem_ops]

/-- The six core selectors in registry-declaration order
(`self.core_selections.values()`). -/
def allCoreSels : List CoreSel :=
  [.random, .high_gflops, .high_cores, .high_mem, .high_mem_bw, .low_power]

/-- The default action list (lines 140-142): full cross-product of the six job
selectors with the six core selectors, job selector in the outer loop. -/
def fullCross : List (JobSel × CoreSel) :=
  (allJobSels.map (fun j => allCoreSels.map (fun c => (j, c)))).flatten

/-- `min(0.0, ...)`-style clamp of the variation signal, `to_range` in the
source (lines 181-184): shift by the sensitivity `S`, rescale by `2*S`,
saturate into `[0, 1]`. -/
def to_range (S v : ℚ) : ℚ :=
  max 0 (min 1 ((v + S) / (2 * S)))

/-- Ascending sort of a sample, modelling numpy's internal sort. -/
def sortedOf (xs : List ℚ) : List ℚ :=
  xs.insertionSort (· ≤ ·)

/-- `np.min`: first element of the ascending sort. -/
def npMin (xs : List ℚ) : ℚ :=
  (sortedOf xs).getD 0 0

/-- `np.max`: last element of the ascending sort. -/
def npMax (xs : List ℚ) : ℚ :=
  (sortedOf xs).getD ((sortedOf xs).length - 1) 0

/-- `np.percentile(xs, q)` with numpy's default linear interpolation between
order statistics: position `h = q/100 * (n-1)` in the sorted sample, result
`s[⌊h⌋] + fract(h) * (s[⌊h⌋+1] - s[⌊h⌋])` (the upper index clipped to `n-1`).
`np.median` is the `q = 50` case. -/
def percentile (xs : List ℚ) (q : ℚ) : ℚ :=
  let s := sortedOf xs
  if s.length = 0 then 0
  else
    let h : ℚ := q / 100 * ((s.length : ℚ) - 1)
    let i : ℕ := (⌊h⌋).toNat
    let lo := s.getD i 0
    let hi := s.getD (min (i + 1) (s.length - 1)) 0
    lo + Int.fract h * (hi - lo)

/-- One requested-resource dimension of the observation (lines 227-237): if
the sample is non-empty, the five percentiles `min, 25, median, 75, max`,
each divided by the dimension's limit; otherwise five zeros. -/
def dimEntries (reqe : List ℚ) (maxe : ℚ) : List ℚ :=
  if reqe.length ≠ 0 then
    [npMin reqe / maxe, percentile reqe 25 / maxe, percentile reqe 50 / maxe,
     percentile reqe 75 / maxe, npMax reqe / maxe]
  else
    [0, 0, 0, 0, 0]

/-- `Environment._base_observation` (lines 180-250), as a pure function of the
observation type, queue sensitivity, pending jobs, job limits and the
previously recorded queue length (`None` before the first call).  Returns the
observation vector together with the new recorded queue length.  The
`otype != 'minimal'` branch of the source (lines 187-212) contains only a
commented-out block (a bare string literal), so it appends nothing. -/
def base_observation (otype : String) (S : ℚ) (pending : List Job)
    (limits : JobLimits) (lastLen : Option ℕ) : List ℚ × ℕ :=
  let obs0 : List ℚ := if otype ≠ "minimal" then [] else []
  let req_time := pending.map (fun job => job.req_time)
  let req_core := pending.map (fun job => job.resources)
  let req_mem := pending.map (fun job => job.memory)
  let req_mem_vol := pending.map (fun job => job.memory_vol)
  let obs1 := obs0 ++ dimEntries req_time limits.max_time
    ++ dimEntries req_core limits.max_core
    ++ dimEntries req_mem limits.max_mem
    ++ dimEntries req_mem_vol limits.max_mem_vol
  let cur := pending.length
  let variation : ℚ :=
    match lastLen with
    | none => 1
    | some prev =>
        if min cur prev = 0 then 1
        else to_range S (((cur : ℚ) - (prev : ℚ)) / ((min cur prev : ℕ) : ℚ))
  (obs1 ++ [variation], cur)

/-- The three reward objectives, as an inductive tag (the source stores the
bound method chosen from `objective_to_reward`, lines 163-168). -/
inductive Objective where
  | makespan
  | energy_consumption
  | edp
deriving DecidableEq

/-- `objective_to_reward` (lines 163-167): objective name registry. -/
def objective_to_reward : List (String × Objective) :=
  [("makespan", .makespan), ("energy_consumption", .energy_consumption),
   ("edp", .edp)]

/-- The environment state produced by `Environment.__init__`. -/
structure Env where
  actions : List (JobSel × CoreSel)
  with_void : Bool
  nb_actions : ℕ
  observation_otype : String
  observation_size : ℕ
  objective : Objective
  queue_sensitivity : ℚ
  last_job_queue_length : Option ℕ
deriving DecidableEq

/-- `Environment.__init__` (lines 105-170).  `last_job_queue_length` starts as
`None` (line 109); the action list is built from the `actions` block when
present (lines 131-138, dict lookups may raise `KeyError`), else as the full
cross-product with a void action (lines 140-143); `nb_actions` adds one for
the void action (lines 145-148); the observation type defaults to `normal`
(lines 151-154); the observation builder is invoked exactly once, to size the
observation space (line 156), with the initial `None` recorded length; the
objective lookup may raise `KeyError` (line 168); finally
`last_job_queue_length` is set to `0` (line 170), overwriting the length
recorded by the sizing call. -/
def envInit (cfg : EnvConfig) (pending : List Job) (limits : JobLimits) :
    Except String Env :=
  match (match cfg.actions with
         | some ac =>
             (match buildPairs ac.selection with
              | .error e => .error e
              | .ok pairs => .ok (pairs, ac.void))
         | none => .ok (fullCross, true) :
           Except String (List (JobSel × CoreSel) × Bool)) with
  | .error e => .error e
  | .ok (acts, wvoid) =>
      let nb := if wvoid then acts.length + 1 else acts.length
      let otype := cfg.observation.getD "normal"
      let sized := base_observation otype cfg.queue_sensitivity pending limits none
      match lookupKey objective_to_reward cfg.objective with
      | .error e => .error e
      | .ok obj =>
          .ok { actions := acts, with_void := wvoid, nb_actions := nb,
                observation_otype := otype, observation_size := sized.1.length,
                objective := obj, queue_sensitivity := cfg.queue_sensitivity,
                last_job_queue_length := some 0 }

/-- A decoded discrete action: a (job-selector, core-selector) pair, or the
distinguished void action. -/
inductive DecodedAction where
  | pair (j : JobSel) (c : CoreSel)
  | void
deriving DecidableEq

/-- Modelled from the spec: `decode_action` is named in §6 and specified in
§4.2 and §8 but its body is not part of `Environment.py` (only the action
list it indexes is, lines 130-149).  Per the spec: index `i < L` maps to
`actions[i]`; `i == L` maps to the void action exactly when void is enabled;
any other index (negative or `≥ action_count`) fails with an out-of-range
error. -/
def decode_action (e : Env) (i : ℤ) : Except String DecodedAction :=
  if 0 ≤ i ∧ i < (e.actions.length : ℤ) then
    match e.actions.get? i.toNat with
    | some a => .ok (.pair a.1 a.2)
    | none => .error "out of range"
  else if e.with_void ∧ i = (e.actions.length : ℤ) then .ok .void
  else .error "out of range"

/-- `Environment.observation` at the step level: run `_base_observation` with
the stored observation type, sensitivity and recorded queue length, and store
the new queue length (line 249). -/
def buildObservation (e : Env) (pending : List Job) (limits : JobLimits) :
    List ℚ × Env :=
  let r := base_observation e.observation_otype e.queue_sensitivity pending
    limits e.last_job_queue_length
  (r.1, { e with last_job_queue_length := some r.2 })

/-- The external state read by the reward functions (lines 252-260):
`simulator.simulation_time`, `workload_manager.last_time`, and the platform's
`get_joules`. -/
structure RewardCtx where
  simulation_time : ℚ
  last_time : ℚ
  get_joules : ℚ → ℚ

/-- `Environment.makespan_reward` (lines 252-253). -/
def makespan_reward (s : RewardCtx) : ℚ :=
  s.simulation_time - s.last_time

/-- `Environment.energy_consumption_reward` (lines 255-257). -/
def energy_consumption_reward (s : RewardCtx) : ℚ :=
  -1 * s.get_joules (s.simulation_time - s.last_time)

/-- `Environment.edp_reward` (lines 259-260). -/
def edp_reward (s : RewardCtx) : ℚ :=
  energy_consumption_reward s * makespan_reward s

/-! ### Concrete fixtures used to instantiate the theorems -/

/-- A configuration with no `actions` block and no `observation` key. -/
def cfgEx : EnvConfig :=
  { actions := none, observation := none, objective := "makespan",
    queue_sensitivity := 1 }

/-- A configuration with an explicit `actions` block. -/
def cfgSel : EnvConfig :=
  { actions := some ⟨[("first", ["random", "low_power"])], false⟩,
    observation := some "minimal", objective := "edp", queue_sensitivity := 1 }

/-- A configuration whose `actions` block pairs an out-of-registry
job-selector name with an EMPTY core-selector list. -/
def cfgBogus : EnvConfig :=
  { actions := some ⟨[("bogus", [])], true⟩, observation := none,
    objective := "makespan", queue_sensitivity := 1 }

/-- Job limits all equal to one. -/
def limitsEx : JobLimits := ⟨1, 1, 1, 1⟩

/-- A job whose requested resources all equal one. -/
def jobEx : Job := ⟨0, 1, 1, 1, 1⟩

/-- The environment produced by constructing from `cfgEx`. -/
def envEx : Env :=
  { actions := fullCross, with_void := true, nb_actions := 37,
    observation_otype := "normal", observation_size := 21,
    objective := .makespan, queue_sensitivity := 1,
    last_job_queue_length := some 0 }

/-- A processor with three cores of which exactly one runs a task. -/
def procEx : Processor := ⟨0, 0, [⟨some 1, 0, 0⟩, ⟨none, 0, 0⟩, ⟨none, 0, 0⟩]⟩

/-- A node with no memory in use. -/
def nodeEx : NodeT := ⟨0⟩

/-- An idle core of `procEx`. -/
def coreEx : Core := ⟨none, 0, 0⟩

/-! ### Helper lemmas: sorting and percentiles -/

theorem sortedOf_length (xs : List ℚ) : (sortedOf xs).length = xs.length :=
  List.length_insertionSort _ xs

theorem sortedOf_sorted (xs : List ℚ) : List.Sorted (· ≤ ·) (sortedOf xs) :=
  List.sorted_insertionSort _ xs

theorem sortedOf_mem {xs : List ℚ} {x : ℚ} : x ∈ sortedOf xs ↔ x ∈ xs :=
  List.mem_insertionSort _

theorem getD_mem_of_lt {l : List ℚ} {i : ℕ} (h : i < l.length) (d : ℚ) :
    l.getD i d ∈ l := by
  rw [List.getD_eq_getElem l d h]
  exact List.getElem_mem h

theorem sorted_getD_mono {l : List ℚ} (hs : List.Sorted (· ≤ ·) l) {i j : ℕ}
    (hij : i ≤ j) (hj : j < l.length) (d : ℚ) : l.getD i d ≤ l.getD j d := by
  have hi : i < l.length := lt_of_le_of_lt hij hj
  rw [List.getD_eq_getElem l d hi, List.getD_eq_getElem l d hj]
  have := hs.rel_get_of_le (a := ⟨i, hi⟩) (b := ⟨j, hj⟩) hij
  simpa [List.get_eq_getElem] using this

theorem percentile_eq (xs : List ℚ) (q : ℚ) (h0 : (sortedOf xs).length ≠ 0) :
    percentile xs q =
      (sortedOf xs).getD (⌊q / 100 * (((sortedOf xs).length : ℚ) - 1)⌋).toNat 0
        + Int.fract (q / 100 * (((sortedOf xs).length : ℚ) - 1)) *
          ((sortedOf xs).getD
              (min ((⌊q / 100 * (((sortedOf xs).length : ℚ) - 1)⌋).toNat + 1)
                ((sortedOf xs).length - 1)) 0
            - (sortedOf xs).getD
                (⌊q / 100 * (((sortedOf xs).length : ℚ) - 1)⌋).toNat 0) := by
  simp only [percentile]
  rw [if_neg h0]

theorem percentile_bounds {xs : List ℚ} {a b q : ℚ} (hne : xs ≠ [])
    (hq0 : 0 ≤ q) (hq1 : q ≤ 100) (hab : ∀ x ∈ xs, a ≤ x ∧ x ≤ b) :
    a ≤ percentile xs q ∧ percentile xs q ≤ b := by
  have hx0 : xs.length ≠ 0 := fun h0 => hne (List.length_eq_zero.mp h0)
  have hn0 : (sortedOf xs).length ≠ 0 := by rw [sortedOf_length]; exact hx0
  rw [percentile_eq xs q hn0]
  set s := sortedOf xs with hs
  set n := s.length with hn
  set h : ℚ := q / 100 * ((n : ℚ) - 1) with hh
  have hn1 : 1 ≤ n := Nat.one_le_iff_ne_zero.mpr hn0
  have hnq : (0 : ℚ) ≤ (n : ℚ) - 1 := by
    have h1 : (1 : ℚ) ≤ (n : ℚ) := by exact_mod_cast hn1
    linarith
  have hq100 : q / 100 ≤ 1 := by
    rw [div_le_one (by norm_num : (0 : ℚ) < 100)]
    exact hq1
  have h0 : 0 ≤ h := by
    rw [hh]
    exact mul_nonneg (div_nonneg hq0 (by norm_num)) hnq
  have hle : h ≤ (n : ℚ) - 1 := by
    rw [hh]
    calc q / 100 * ((n : ℚ) - 1) ≤ 1 * ((n : ℚ) - 1) :=
          mul_le_mul_of_nonneg_right hq100 hnq
      _ = (n : ℚ) - 1 := one_mul _
  have hcast : (((n - 1 : ℕ)) : ℚ) = (n : ℚ) - 1 := by
    rw [Nat.cast_sub hn1, Nat.cast_one]
  have hfl_le : ⌊h⌋ ≤ ((n - 1 : ℕ) : ℤ) := by
    have h1 : h ≤ ((n - 1 : ℕ) : ℚ) := by rw [hcast]; exact hle
    have h2 := Int.floor_le_floor h1
    rwa [Int.floor_natCast] at h2
  have hi_le : (⌊h⌋).toNat ≤ n - 1 := Int.toNat_le.mpr hfl_le
  have hi_lt : (⌊h⌋).toNat < n :=
    lt_of_le_of_lt hi_le (Nat.sub_lt (Nat.pos_of_ne_zero hn0) one_pos)
  have hj_le : min ((⌊h⌋).toNat + 1) (n - 1) ≤ n - 1 := min_le_right _ _
  have hj_lt : min ((⌊h⌋).toNat + 1) (n - 1) < n :=
    lt_of_le_of_lt hj_le (Nat.sub_lt (Nat.pos_of_ne_zero hn0) one_pos)
  have hij : (⌊h⌋).toNat ≤ min ((⌊h⌋).toNat + 1) (n - 1) :=
    le_min (Nat.le_succ _) hi_le
  have hsorted : List.Sorted (· ≤ ·) s := sortedOf_sorted xs
  have hlohi : s.getD (⌊h⌋).toNat 0 ≤ s.getD (min ((⌊h⌋).toNat + 1) (n - 1)) 0 :=
    sorted_getD_mono hsorted hij hj_lt 0
  have hlo_mem : s.getD (⌊h⌋).toNat 0 ∈ xs :=
    sortedOf_mem.mp (getD_mem_of_lt hi_lt 0)
  have hhi_mem : s.getD (min ((⌊h⌋).toNat + 1) (n - 1)) 0 ∈ xs :=
    sortedOf_mem.mp (getD_mem_of_lt hj_lt 0)
  obtain ⟨hlo_a, hlo_b⟩ := hab _ hlo_mem
  obtain ⟨hhi_a, hhi_b⟩ := hab _ hhi_mem
  have hf0 : 0 ≤ Int.fract h := Int.fract_nonneg h
  have hf1 : Int.fract h ≤ 1 := le_of_lt (Int.fract_lt_one h)
  constructor
  · have hnn : 0 ≤ Int.fract h *
        (s.getD (min ((⌊h⌋).toNat + 1) (n - 1)) 0 - s.getD (⌊h⌋).toNat 0) :=
      mul_nonneg hf0 (sub_nonneg.mpr hlohi)
    linarith
  · have hub : Int.fract h *
        (s.getD (min ((⌊h⌋).toNat + 1) (n - 1)) 0 - s.getD (⌊h⌋).toNat 0) ≤
        s.getD (min ((⌊h⌋).toNat + 1) (n - 1)) 0 - s.getD (⌊h⌋).toNat 0 :=
      mul_le_of_le_one_left (sub_nonneg.mpr hlohi) hf1
    linarith

theorem npMin_mem {xs : List ℚ} (hne : xs ≠ []) : npMin xs ∈ xs := by
  have hn0 : 0 < (sortedOf xs).length := by
    rw [sortedOf_length]
    exact List.length_pos.mpr hne
  exact sortedOf_mem.mp (getD_mem_of_lt hn0 0)

theorem npMax_mem {xs : List ℚ} (hne : xs ≠ []) : npMax xs ∈ xs := by
  have hn0 : 0 < (sortedOf xs).length := by
    rw [sortedOf_length]
    exact List.length_pos.mpr hne
  have hlt : (sortedOf xs).length - 1 < (sortedOf xs).length := Nat.sub_lt hn0 one_pos
  exact sortedOf_mem.mp (getD_mem_of_lt hlt 0)

/-! ### Helper lemmas: observation entries -/

theorem dimEntries_length (reqe : List ℚ) (maxe : ℚ) :
    (dimEntries reqe maxe).length = 5 := by
  unfold dimEntries
  split <;> rfl

theorem dimEntries_bounds {reqe : List ℚ} {maxe : ℚ} (hm : 0 < maxe)
    (hb : ∀ v ∈ reqe, 0 ≤ v ∧ v ≤ maxe) :
    ∀ x ∈ dimEntries reqe maxe, 0 ≤ x ∧ x ≤ 1 := by
  intro x hx
  unfold dimEntries at hx
  by_cases hlen : reqe.length ≠ 0
  · rw [if_pos hlen] at hx
    have hne : reqe ≠ [] := fun hnil => hlen (by rw [hnil]; rfl)
    have hdiv : ∀ p : ℚ, 0 ≤ p → p ≤ maxe → 0 ≤ p / maxe ∧ p / maxe ≤ 1 :=
      fun p h1 h2 => ⟨div_nonneg h1 (le_of_lt hm), (div_le_one hm).mpr h2⟩
    have hminv := hb _ (npMin_mem hne)
    have hmaxv := hb _ (npMax_mem hne)
    have h25 := percentile_bounds (q := 25) hne (by norm_num) (by norm_num) hb
    have h50 := percentile_bounds (q := 50) hne (by norm_num) (by norm_num) hb
    have h75 := percentile_bounds (q := 75) hne (by norm_num) (by norm_num) hb
    simp only [List.mem_cons, List.not_mem_nil, or_false] at hx
    rcases hx with h | h | h | h | h <;> rw [h]
    · exact hdiv _ hminv.1 hminv.2
    · exact hdiv _ h25.1 h25.2
    · exact hdiv _ h50.1 h50.2
    · exact hdiv _ h75.1 h75.2
    · exact hdiv _ hmaxv.1 hmaxv.2
  · rw [if_neg hlen] at hx
    simp only [List.mem_cons, List.not_mem_nil, or_false] at hx
    rcases hx with h | h | h | h | h <;> rw [h] <;> norm_num

theorem to_range_bounds (S v : ℚ) : 0 ≤ to_range S v ∧ to_range S v ≤ 1 := by
  unfold to_range
  exact ⟨le_max_left 0 _, max_le (by norm_num) (min_le_left 1 _)⟩

theorem to_range_eq_one {S v : ℚ} (hS : 0 < S) (hv : S ≤ v) : to_range S v = 1 := by
  have h2S : (0 : ℚ) < 2 * S := by linarith
  have h1 : 1 ≤ (v + S) / (2 * S) := by
    rw [le_div_iff₀ h2S]
    linarith
  unfold to_range
  rw [min_eq_left h1, max_eq_right (by norm_num : (0 : ℚ) ≤ 1)]

theorem to_range_eq_zero {S v : ℚ} (hS : 0 < S) (hv : v ≤ -S) : to_range S v = 0 := by
  have h2S : (0 : ℚ) < 2 * S := by linarith
  have h1 : (v + S) / (2 * S) ≤ 0 := by
    rw [div_le_iff₀ h2S]
    linarith
  unfold to_range
  rw [min_eq_right (le_trans h1 (by norm_num)), max_eq_left h1]

theorem base_observation_fst (otype : String) (S : ℚ) (pending : List Job)
    (limits : JobLimits) (lastLen : Option ℕ) :
    (base_observation otype S pending limits lastLen).1 =
      dimEntries (pending.map (fun job => job.req_time)) limits.max_time
        ++ dimEntries (pending.map (fun job => job.resources)) limits.max_core
        ++ dimEntries (pending.map (fun job => job.memory)) limits.max_mem
        ++ dimEntries (pending.map (fun job => job.memory_vol)) limits.max_mem_vol
        ++ [match lastLen with
            | none => (1 : ℚ)
            | some prev =>
                if min pending.length prev = 0 then 1
                else to_range S
                  (((pending.length : ℚ) - (prev : ℚ)) /
                    ((min pending.length prev : ℕ) : ℚ))] := by
  simp only [base_observation, ite_self, List.nil_append]

theorem base_observation_snd (otype : String) (S : ℚ) (pending : List Job)
    (limits : JobLimits) (lastLen : Option ℕ) :
    (base_observation otype S pending limits lastLen).2 = pending.length := rfl

theorem base_observation_length (otype : String) (S : ℚ) (pending : List Job)
    (limits : JobLimits) (lastLen : Option ℕ) :
    (base_observation otype S pending limits lastLen).1.length = 21 := by
  rw [base_observation_fst]
  simp [List.length_append, dimEntries_length]

theorem base_observation_getLast (otype : String) (S : ℚ) (pending : List Job)
    (limits : JobLimits) (lastLen : Option ℕ) :
    (base_observation otype S pending limits lastLen).1.getLast? =
      some (match lastLen with
            | none => (1 : ℚ)
            | some prev =>
                if min pending.length prev = 0 then 1
                else to_range S
                  (((pending.length : ℚ) - (prev : ℚ)) /
                    ((min pending.length prev : ℕ) : ℚ))) := by
  rw [base_observation_fst]
  rw [List.append_assoc, List.append_assoc, List.append_assoc]
  rw [← List.append_assoc, ← List.append_assoc, ← List.append_assoc]
  exact List.getLast?_concat _

theorem base_observation_getLast_none (otype : String) (S : ℚ) (pending : List Job)
    (limits : JobLimits) :
    (base_observation otype S pending limits none).1.getLast? = some 1 :=
  base_observation_getLast otype S pending limits none

theorem base_observation_getLast_some (otype : String) (S : ℚ) (pending : List Job)
    (limits : JobLimits) (prev : ℕ) :
    (base_observation otype S pending limits (some prev)).1.getLast? =
      some (if min pending.length prev = 0 then 1
            else to_range S (((pending.length : ℚ) - (prev : ℚ))
              / ((min pending.length prev : ℕ) : ℚ))) :=
  base_observation_getLast otype S pending limits (some prev)

/-! ### Helper lemmas: registry lookups and construction -/

theorem lookupKey_isOk {α : Type} (l : List (String × α)) (k : String) :
    (lookupKey l k).isOk = true ↔ k ∈ l.map Prod.fst := by
  unfold lookupKey
  rcases hf : l.find? (fun p => p.1 == k) with _ | p
  · rw [hf]
    simp only [Except.isOk, Except.toBool, Bool.false_eq_true, false_iff]
    intro hmem
    obtain ⟨x, hx, hxk⟩ := List.mem_map.mp hmem
    have hnone := List.find?_eq_none.mp hf x hx
    exact hnone (by simp [hxk])
  · rw [hf]
    simp only [Except.isOk, Except.toBool, true_iff]
    have hpk : p.1 = k := by simpa using List.find?_some hf
    exact List.mem_map.mpr ⟨p, List.mem_of_find?_eq_some hf, hpk⟩

theorem buildPairsFor_isOk (js : String) (css : List String) :
    (buildPairsFor js css).isOk = true ↔
      ∀ cs ∈ css, js ∈ job_selections.map Prod.fst
        ∧ cs ∈ core_selections.map Prod.fst := by
  induction css with
  | nil => simp [buildPairsFor, Except.isOk, Except.toBool]
  | cons cs rest ih =>
    simp only [buildPairsFor]
    rcases hj : lookupKey job_selections js with e | j
    · simp only [Except.isOk, Except.toBool, Bool.false_eq_true, false_iff]
      intro hall
      have hjs := (lookupKey_isOk job_selections js).mpr
        (hall cs (List.mem_cons_self cs rest)).1
      rw [hj] at hjs
      simp [Except.isOk, Except.toBool] at hjs
    · rcases hl : lookupKey core_selections cs with e | c
      · simp only [hl, Except.isOk, Except.toBool, Bool.false_eq_true, false_iff]
        intro hall
        have hcs := (lookupKey_isOk core_selections cs).mpr
          (hall cs (List.mem_cons_self cs rest)).2
        rw [hl] at hcs
        simp [Except.isOk, Except.toBool] at hcs
      · rcases hr : buildPairsFor js rest with e | more
        · simp only [hl, hr, Except.isOk, Except.toBool, Bool.false_eq_true,
            false_iff]
          intro hall
          have hrest : (buildPairsFor js rest).isOk = true :=
            ih.mpr (fun x hx => hall x (List.mem_cons_of_mem cs hx))
          rw [hr] at hrest
          simp [Except.isOk, Except.toBool] at hrest
        · simp only [hl, hr, Except.isOk, Except.toBool, true_iff]
          intro x hx
          rcases List.mem_cons.mp hx with h | h
          · subst h
            constructor
            · have hjs := lookupKey_isOk job_selections js
              rw [hj] at hjs
              exact hjs.mp rfl
            · have hcs := lookupKey_isOk core_selections x
              rw [hl] at hcs
              exact hcs.mp rfl
          · exact ih.mp (by rw [hr]; rfl) x h

theorem buildPairs_isOk (sel : List (String × List String)) :
    (buildPairs sel).isOk = true ↔
      ∀ p ∈ sel, ∀ cs ∈ p.2, p.1 ∈ job_selections.map Prod.fst
        ∧ cs ∈ core_selections.map Prod.fst := by
  induction sel with
  | nil => simp [buildPairs, Except.isOk, Except.toBool]
  | cons p rest ih =>
    obtain ⟨js, css⟩ := p
    simp only [buildPairs]
    rcases hf : buildPairsFor js css with e | pairs
    · simp only [Except.isOk, Except.toBool, Bool.false_eq_true, false_iff]
      intro hall
      have hcss : (buildPairsFor js css).isOk = true :=
        (buildPairsFor_isOk js css).mpr
          (hall (js, css) (List.mem_cons_self _ rest))
      rw [hf] at hcss
      simp [Except.isOk, Except.toBool] at hcss
    · rcases hr : buildPairs rest with e | more
      · simp only [hf, Except.isOk, Except.toBool, Bool.false_eq_true, false_iff]
        intro hall
        have hrest : (buildPairs rest).isOk = true :=
          ih.mpr (fun x hx => hall x (List.mem_cons_of_mem _ hx))
        rw [hr] at hrest
        simp [Except.isOk, Except.toBool] at hrest
      · simp only [hf, Except.isOk, Except.toBool, true_iff]
        intro x hx
        rcases List.mem_cons.mp hx with h | h
        · subst h
          exact (buildPairsFor_isOk js css).mp (by rw [hf]; rfl)
        · exact ih.mp (by rw [hr]; rfl) x h

theorem envInit_ok_fields {cfg : EnvConfig} {pending : List Job} {limits : JobLimits}
    {env : Env} (henv : envInit cfg pending limits = .ok env) :
    env.nb_actions =
        (if env.with_void then env.actions.length + 1 else env.actions.length)
      ∧ env.last_job_queue_length = some 0
      ∧ env.observation_otype = cfg.observation.getD "normal"
      ∧ env.queue_sensitivity = cfg.queue_sensitivity
      ∧ env.observation_size = 21
      ∧ (cfg.actions = none → env.actions = fullCross ∧ env.with_void = true)
      ∧ (∀ ac, cfg.actions = some ac →
          env.with_void = ac.void ∧ buildPairs ac.selection = .ok env.actions) := by
  unfold envInit at henv
  rcases hac : cfg.actions with _ | ac <;> simp only [hac] at henv
  · rcases hob : lookupKey objective_to_reward cfg.objective with e | obj <;>
      simp only [hob] at henv
    · simp at henv
    · simp only [Except.ok.injEq] at henv
      subst henv
      refine ⟨by simp, rfl, rfl, rfl, ?_, fun _ => ⟨rfl, rfl⟩, ?_⟩
      · exact base_observation_length _ _ _ _ _
      · intro ac hsome
        exact absurd hsome (by simp)
  · rcases hbp : buildPairs ac.selection with e | pairs <;> simp only [hbp] at henv
    · simp at henv
    · rcases hob : lookupKey objective_to_reward cfg.objective with e | obj <;>
        simp only [hob] at henv
      · simp at henv
      · simp only [Except.ok.injEq] at henv
        subst henv
        refine ⟨rfl, rfl, rfl, rfl, ?_, ?_, ?_⟩
        · exact base_observation_length _ _ _ _ _
        · intro hnone
          exact absurd hnone (by simp)
        · intro ac' hsome
          obtain rfl : ac = ac' := by injection hsome
          exact ⟨rfl, hbp⟩

theorem decode_action_lt {e : Env} {i : ℕ} (hi : i < e.actions.length) :
    decode_action e (i : ℤ) =
      .ok (.pair (e.actions[i]).1 (e.actions[i]).2) := by
  unfold decode_action
  rw [if_pos ⟨Int.natCast_nonneg i, by exact_mod_cast hi⟩]
  rw [Int.toNat_natCast, List.get?_eq_getElem?, List.getElem?_eq_getElem hi]

theorem envInit_isOk_iff (cfg : EnvConfig) (pending : List Job) (limits : JobLimits) :
    (envInit cfg pending limits).isOk = true ↔
      ((∀ ac, cfg.actions = some ac → (buildPairs ac.selection).isOk = true)
        ∧ (lookupKey objective_to_reward cfg.objective).isOk = true) := by
  unfold envInit
  rcases hac : cfg.actions with _ | ac
  · rcases hob : lookupKey objective_to_reward cfg.objective with e | obj <;>
      simp [hac, hob, Except.isOk, Except.toBool]
  · rcases hbp : buildPairs ac.selection with e | pairs
    · simp [hac, hbp, Except.isOk, Except.toBool]
    · rcases hob : lookupKey objective_to_reward cfg.objective with e | obj <;>
        simp [hac, hbp, hob, Except.isOk, Except.toBool]

/-! ### Claim theorems -/

/-- C1: for every configuration accepted at construction, the total discrete
action count `nb_actions` equals the number of configured (job-selector,
core-selector) pairs plus one exactly when the void action is enabled; and
when the configuration has no `actions` block, the action list is the full
cross-product of the 6 job selectors and 6 core selectors in
registry-declaration order (`fullCross`), the void action is enabled, and the
action count is 37. -/
theorem C1_action_count (cfg : EnvConfig) (pending : List Job) (limits : JobLimits)
    (env : Env) (henv : envInit cfg pending limits = .ok env) :
    env.nb_actions = env.actions.length + (if env.with_void then 1 else 0)
      ∧ (cfg.actions = none →
          env.actions = fullCross ∧ env.with_void = true ∧ env.nb_actions = 37) := by
  obtain ⟨hnb, -, -, -, -, hnone, -⟩ := envInit_ok_fields henv
  constructor
  · rw [hnb]
    cases env.with_void <;> simp
  · intro h
    obtain ⟨hacts, hvoid⟩ := hnone h
    refine ⟨hacts, hvoid, ?_⟩
    rw [hnb, hacts, hvoid]
    rfl

/-- C1 witness: constructing from the default configuration (no `actions`
block) yields the full cross-product, void enabled, and 37 actions. -/
theorem C1_action_count_witness :
    envInit cfgEx [] limitsEx = .ok envEx
      ∧ envEx.nb_actions = envEx.actions.length + (if envEx.with_void then 1 else 0)
      ∧ envEx.actions = fullCross ∧ envEx.with_void = true ∧ envEx.nb_actions = 37 := by
  have henv : envInit cfgEx [] limitsEx = .ok envEx := by rfl
  have h := C1_action_count cfgEx [] limitsEx envEx henv
  exact ⟨henv, h.1, h.2 rfl⟩

/-- C2: decoding index `i` against an environment whose action list has
length `L` returns the `i`-th (job-selector, core-selector) pair of the
construction order for every `0 ≤ i < L`; index `L` decodes to Void exactly
when void is enabled; and every index `< 0` or `≥ action_count` fails with an
out-of-range error.  (`decode_action` itself is modelled from the spec, §4.2;
the list it indexes is the one the source builds.) -/
theorem C2_decode (cfg : EnvConfig) (pending : List Job) (limits : JobLimits)
    (env : Env) (henv : envInit cfg pending limits = .ok env) :
    (∀ i : ℕ, (hi : i < env.actions.length) →
        decode_action env (i : ℤ) =
          .ok (.pair (env.actions[i]).1 (env.actions[i]).2))
      ∧ decode_action env (env.actions.length : ℤ) =
          (if env.with_void then .ok .void else .error "out of range")
      ∧ (∀ i : ℤ, i < 0 ∨ (env.nb_actions : ℤ) ≤ i →
          (decode_action env i).isOk = false) := by
  obtain ⟨hnb, -, -, -, -, -, -⟩ := envInit_ok_fields henv
  refine ⟨fun i hi => decode_action_lt hi, ?_, ?_⟩
  · cases hw : env.with_void <;>
      simp [decode_action, hw, lt_irrefl]
  · intro i hi
    have hlen : i < 0 ∨ (env.actions.length : ℤ) ≤ i := by
      rcases hi with h | h
      · exact .inl h
      · right
        rw [hnb] at h
        cases hw : env.with_void <;> rw [hw] at h <;> simp at h <;> omega
    unfold decode_action
    rw [if_neg, if_neg]
    · rfl
    · rintro ⟨hw, rfl⟩
      rcases hi with h | h
      · omega
      · rw [hnb, hw] at h
        simp at h
    · rintro ⟨h0, hlt⟩
      rcases hlen with h | h <;> omega

/-- C2 witness: in the default 37-action environment, index 5 decodes to the
pair (random job selector, low-power core selector), index 36 decodes to
Void, and indexes 37 and −1 fail. -/
theorem C2_decode_witness :
    decode_action envEx 5 = .ok (.pair .random .low_power)
      ∧ decode_action envEx 36 = .ok .void
      ∧ (decode_action envEx 37).isOk = false
      ∧ (decode_action envEx (-1)).isOk = false := by
  have henv : envInit cfgEx [] limitsEx = .ok envEx := by rfl
  have h := C2_decode cfgEx [] limitsEx envEx henv
  refine ⟨?_, ?_, ?_, ?_⟩
  · have h5 := h.1 5 (by decide)
    rw [show ((5 : ℕ) : ℤ) = (5 : ℤ) by rfl] at h5
    rw [h5]
    rfl
  · have h36 := h.2.1
    rw [show ((envEx.actions.length : ℕ) : ℤ) = (36 : ℤ) by rfl] at h36
    rw [h36]
    rfl
  · exact h.2.2 37 (by right; decide)
  · exact h.2.2 (-1) (by left; decide)

/-- C6: the three reward functions are pure reads of the external state:
`makespan_reward` returns `simulation_time − last_time`,
`energy_consumption_reward` returns `−1 × get_joules(delta)`, `edp_reward`
returns their product, which is non-positive whenever `get_joules` is
non-negative and the time delta is non-negative; and on
`simulation_time = 100`, `last_time = 40`, `get_joules 60 = 5` they return
60, −5 and −300.  (Purity is inherent to the embedding: each is a function
of the read fields only and no environment state occurs in their types.) -/
theorem C6_rewards (s : RewardCtx)
    (hj : 0 ≤ s.get_joules (s.simulation_time - s.last_time))
    (ht : s.last_time ≤ s.simulation_time) :
    makespan_reward s = s.simulation_time - s.last_time
      ∧ energy_consumption_reward s =
          -1 * s.get_joules (s.simulation_time - s.last_time)
      ∧ edp_reward s = energy_consumption_reward s * makespan_reward s
      ∧ edp_reward s ≤ 0
      ∧ (∀ g : ℚ → ℚ, g 60 = 5 →
          makespan_reward ⟨100, 40, g⟩ = 60
            ∧ energy_consumption_reward ⟨100, 40, g⟩ = -5
            ∧ edp_reward ⟨100, 40, g⟩ = -300) := by
  refine ⟨rfl, rfl, rfl, ?_, ?_⟩
  · have hdelta : 0 ≤ makespan_reward s := by
      unfold makespan_reward
      linarith
    have henergy : energy_consumption_reward s ≤ 0 := by
      unfold energy_consumption_reward
      linarith
    exact mul_nonpos_iff.mpr (.inr ⟨henergy, hdelta⟩)
  · intro g hg
    refine ⟨?_, ?_, ?_⟩
    · unfold makespan_reward
      norm_num
    · unfold energy_consumption_reward
      norm_num [hg]
    · unfold edp_reward energy_consumption_reward makespan_reward
      norm_num [hg]

/-- C6 witness: at simulation time 100, last decision time 40 and a platform
drawing 5 joules over the 60-unit delta, the rewards are 60, −5 and −300, and
the energy-delay product is non-positive. -/
theorem C6_rewards_witness :
    makespan_reward ⟨100, 40, fun _ => 5⟩ = 60
      ∧ energy_consumption_reward ⟨100, 40, fun _ => 5⟩ = -5
      ∧ edp_reward ⟨100, 40, fun _ => 5⟩ = -300
      ∧ edp_reward ⟨100, 40, fun _ => 5⟩ ≤ 0 := by
  have h := C6_rewards ⟨100, 40, fun _ => 5⟩ (by norm_num) (by norm_num)
  obtain ⟨hm, hc, hp⟩ := h.2.2.2.2 (fun _ => 5) rfl
  exact ⟨hm, hc, hp, h.2.2.2.1⟩

/-- C7: the claim (and the class docstring, line 69) say the `high_cores`
score is the negation of the number of AVAILABLE cores in the owning
processor; the code (lines 123-124) negates the number of cores whose `task`
is not `None`, i.e. the BUSY cores.  On a processor with three cores of which
exactly one is busy, the code yields −1 while the documented score is −2, so
min-seeking selection favors the processor with the fewest available cores,
contradicting the source's own docstring. -/
theorem C7_high_cores_bug :
    coreScore .high_cores nodeEx procEx coreEx = some (-1)
      ∧ high_cores_doc_score procEx = -2
      ∧ coreScore .high_cores nodeEx procEx coreEx ≠
          some (high_cores_doc_score procEx) := by
  refine ⟨?_, ?_, ?_⟩ <;> decide

/-- C3: assuming every job limit is positive and at least the maximum
corresponding requested value over pending jobs (whose attributes are the
non-negative numerics of the data model), the observation builder returns a
vector of length exactly 5 × 4 + 1 = 21 whose every entry lies in [0, 1], for
every pending-job queue, recorded queue length and observation profile. -/
theorem C3_observation_bounds (otype : String) (S : ℚ) (pending : List Job)
    (limits : JobLimits) (lastLen : Option ℕ)
    (hpos : 0 < limits.max_time ∧ 0 < limits.max_core ∧ 0 < limits.max_mem
      ∧ 0 < limits.max_mem_vol)
    (hjobs : ∀ job ∈ pending,
      (0 ≤ job.req_time ∧ job.req_time ≤ limits.max_time)
        ∧ (0 ≤ job.resources ∧ job.resources ≤ limits.max_core)
        ∧ (0 ≤ job.memory ∧ job.memory ≤ limits.max_mem)
        ∧ (0 ≤ job.memory_vol ∧ job.memory_vol ≤ limits.max_mem_vol)) :
    (base_observation otype S pending limits lastLen).1.length = 5 * 4 + 1
      ∧ ∀ x ∈ (base_observation otype S pending limits lastLen).1,
          0 ≤ x ∧ x ≤ 1 := by
  obtain ⟨ht, hc, hm, hv⟩ := hpos
  constructor
  · rw [base_observation_length]
  · intro x hx
    rw [base_observation_fst] at hx
    simp only [List.mem_append, List.mem_singleton] at hx
    rcases hx with ((((h | h) | h) | h) | h)
    · refine dimEntries_bounds ht ?_ x h
      intro v hv'
      obtain ⟨job, hjob, rfl⟩ := List.mem_map.mp hv'
      exact (hjobs job hjob).1
    · refine dimEntries_bounds hc ?_ x h
      intro v hv'
      obtain ⟨job, hjob, rfl⟩ := List.mem_map.mp hv'
      exact (hjobs job hjob).2.1
    · refine dimEntries_bounds hm ?_ x h
      intro v hv'
      obtain ⟨job, hjob, rfl⟩ := List.mem_map.mp hv'
      exact (hjobs job hjob).2.2.1
    · refine dimEntries_bounds hv ?_ x h
      intro v hv'
      obtain ⟨job, hjob, rfl⟩ := List.mem_map.mp hv'
      exact (hjobs job hjob).2.2.2
    · subst h
      rcases lastLen with _ | prev
      · norm_num
      · by_cases hmin : min pending.length prev = 0
        · simp only [hmin, if_pos]
          norm_num
        · simp only [hmin, if_neg, if_false]
          exact to_range_bounds _ _

/-- C3 witness: a one-job queue with unit limits yields 21 entries in
[0, 1]. -/
theorem C3_observation_bounds_witness :
    (base_observation "normal" 1 [jobEx] limitsEx none).1.length = 5 * 4 + 1
      ∧ ∀ x ∈ (base_observation "normal" 1 [jobEx] limitsEx none).1,
          0 ≤ x ∧ x ≤ 1 :=
  C3_observation_bounds "normal" 1 [jobEx] limitsEx none (by decide) (by decide)

/-- C4: degenerate cases never raise and produce fixed sentinels: with an
empty pending queue the whole observation is 20 exact zeros followed by the
variation entry (itself 1 since `min 0 prev = 0`); and whenever the recorded
queue length is undefined (`None`) or `min(cur, prev) = 0`, the final entry
is the literal constant 1, not the clamped general-branch value. -/
theorem C4_degenerate (otype : String) (S : ℚ) (limits : JobLimits) :
    (∀ lastLen, (base_observation otype S [] limits lastLen).1 =
        List.replicate 20 0 ++ [1])
      ∧ (∀ pending : List Job,
          (base_observation otype S pending limits none).1.getLast? = some 1)
      ∧ (∀ (pending : List Job) (prev : ℕ), min pending.length prev = 0 →
          (base_observation otype S pending limits (some prev)).1.getLast?
            = some 1) := by
  refine ⟨?_, ?_, ?_⟩
  · intro lastLen
    rw [base_observation_fst]
    rcases lastLen with _ | prev
    · rfl
    · simp [dimEntries, Nat.zero_min, List.replicate]
  · intro pending
    rw [base_observation_getLast]
  · intro pending prev hmin
    rw [base_observation_getLast]
    simp [hmin]

/-- C4 witness: the empty queue with recorded length 3 yields exactly twenty
zeros and a final 1; a one-job queue against recorded length 0 yields final
entry 1. -/
theorem C4_degenerate_witness :
    (base_observation "normal" 1 [] limitsEx (some 3)).1 =
        List.replicate 20 0 ++ [1]
      ∧ (base_observation "normal" 1 [jobEx] limitsEx (some 0)).1.getLast?
          = some 1 := by
  have h := C4_degenerate "normal" 1 limitsEx
  exact ⟨h.1 (some 3), h.2.2 [jobEx] 0 (by decide)⟩

/-- C5: whenever `min(cur, prev) > 0`, the variation-ratio entry equals
`clamp((raw + S) / (2S), 0, 1)` with `raw = (cur − prev) / min(cur, prev)`;
it saturates to exactly 1 whenever `raw` exceeds (or reaches) `S` and to
exactly 0 whenever it is below `−S`; in particular `S = 1/2, prev = 10,
cur = 15` yields 1 and `S = 1, prev = 4, cur = 4` yields 1/2. -/
theorem C5_variation_ratio (otype : String) (S : ℚ) (pending : List Job)
    (limits : JobLimits) (prev : ℕ) (hS : 0 < S)
    (hmin : min pending.length prev ≠ 0) :
    ((base_observation otype S pending limits (some prev)).1.getLast? =
        some (max 0 (min 1
          ((((pending.length : ℚ) - (prev : ℚ))
              / ((min pending.length prev : ℕ) : ℚ) + S) / (2 * S)))))
      ∧ (S ≤ ((pending.length : ℚ) - (prev : ℚ))
            / ((min pending.length prev : ℕ) : ℚ) →
          (base_observation otype S pending limits (some prev)).1.getLast?
            = some 1)
      ∧ (((pending.length : ℚ) - (prev : ℚ))
            / ((min pending.length prev : ℕ) : ℚ) ≤ -S →
          (base_observation otype S pending limits (some prev)).1.getLast?
            = some 0)
      ∧ (∀ p15 : List Job, p15.length = 15 →
          (base_observation otype (1/2) p15 limits (some 10)).1.getLast?
            = some 1)
      ∧ (∀ p4 : List Job, p4.length = 4 →
          (base_observation otype 1 p4 limits (some 4)).1.getLast?
            = some (1/2)) := by
  refine ⟨?_, ?_, ?_, ?_, ?_⟩
  · rw [base_observation_getLast_some, if_neg hmin]
    rfl
  · intro hraw
    rw [base_observation_getLast_some, if_neg hmin, to_range_eq_one hS hraw]
  · intro hraw
    rw [base_observation_getLast_some, if_neg hmin, to_range_eq_zero hS hraw]
  · intro p15 h15
    have hm : min p15.length 10 ≠ 0 := by rw [h15]; decide
    rw [base_observation_getLast_some, if_neg hm, h15]
    have hmv : min (15 : ℕ) 10 = 10 := by decide
    rw [hmv, to_range_eq_one (by norm_num)]
    push_cast
    norm_num
  · intro p4 h4
    have hm : min p4.length 4 ≠ 0 := by rw [h4]; decide
    rw [base_observation_getLast_some, if_neg hm, h4]
    have hmv : min (4 : ℕ) 4 = 4 := by decide
    rw [hmv]
    norm_num [to_range, min_def, max_def]

/-- C5 witness: a queue that grew from 10 to 15 under sensitivity 1/2
saturates the entry to 1; a queue steady at 4 under sensitivity 1 gives
1/2. -/
theorem C5_variation_ratio_witness :
    (base_observation "normal" (1/2) (List.replicate 15 jobEx) limitsEx
        (some 10)).1.getLast? = some 1
      ∧ (base_observation "normal" 1 (List.replicate 4 jobEx) limitsEx
          (some 4)).1.getLast? = some (1/2) := by
  have h1 := C5_variation_ratio "normal" (1/2) (List.replicate 15 jobEx)
    limitsEx 10 (by norm_num) (by decide)
  have h2 := C5_variation_ratio "normal" 1 (List.replicate 4 jobEx)
    limitsEx 4 (by norm_num) (by decide)
  exact ⟨h1.2.2.2.1 _ (by decide), h2.2.2.2.2 _ (by decide)⟩

/-- C8: the observation builder returns the identical vector under every
observation profile (in particular `minimal`, `small` and `normal`: the
richer per-node/per-core block is commented out in the source), the default
profile when no `observation` key is configured is `normal`, and the
observation length is 21 under every profile. -/
theorem C8_profiles (o1 o2 : String) (S : ℚ) (pending : List Job)
    (limits : JobLimits) (lastLen : Option ℕ) (cfg : EnvConfig)
    (pending0 : List Job) (limits0 : JobLimits) (env : Env)
    (hobs : cfg.observation = none)
    (henv : envInit cfg pending0 limits0 = .ok env) :
    base_observation o1 S pending limits lastLen
        = base_observation o2 S pending limits lastLen
      ∧ env.observation_otype = "normal"
      ∧ (base_observation o1 S pending limits lastLen).1.length = 21 := by
  refine ⟨?_, ?_, base_observation_length _ _ _ _ _⟩
  · unfold base_observation
    simp only [ite_self]
  · obtain ⟨-, -, hotype, -, -, -, -⟩ := envInit_ok_fields henv
    rw [hotype, hobs]
    rfl

/-- C8 witness: the `minimal` and `small` profiles agree on a concrete state,
the default-configured environment stores profile `normal`, and the length is
21. -/
theorem C8_profiles_witness :
    base_observation "minimal" 1 [jobEx] limitsEx none
        = base_observation "small" 1 [jobEx] limitsEx none
      ∧ envEx.observation_otype = "normal"
      ∧ (base_observation "minimal" 1 [jobEx] limitsEx none).1.length = 21 :=
  C8_profiles "minimal" "small" 1 [jobEx] limitsEx none cfgEx [] limitsEx envEx
    rfl (by rfl)

/-- C9 counterexample: the claim as stated is false of the program.  In
`cfgBogus` the name `bogus` is a configured job-selector name outside the
registry, yet construction SUCCEEDS: line 136 performs both registry lookups
only inside the innermost loop, and the empty core-selector list paired with
`bogus` skips that loop entirely. -/
theorem C9_counterexample :
    (envInit cfgBogus [] limitsEx).isOk = true
      ∧ "bogus" ∉ job_selections.map Prod.fst :=
  ⟨by rfl, by decide⟩

/-- C9 (amended): construction fails (with a lookup error raised during
`__init__` itself, never deferred to first use) exactly when the configured
objective is not one of `makespan`, `energy_consumption`, `edp`, or some
configured selection entry pairs a job-selector name outside {random, first,
shortest, smallest, low_mem, low_mem_ops} with at least one core-selector
name, or contains a core-selector name outside {random, high_gflops,
high_cores, high_mem, high_mem_bw, low_power}.  A job-selector name paired
with an empty core-selector list triggers no lookup (line 136 is inside the
innermost loop) and so cannot fail, even when the name is unknown.  The
requested-memory-bandwidth job selector is registered as `low_mem_ops`, not
`low_mem_bw`. -/
theorem C9_construction_validation (cfg : EnvConfig) (pending : List Job)
    (limits : JobLimits) :
    ((envInit cfg pending limits).isOk = true ↔
        ((cfg.objective = "makespan" ∨ cfg.objective = "energy_consumption"
            ∨ cfg.objective = "edp")
          ∧ ∀ ac, cfg.actions = some ac → ∀ p ∈ ac.selection, ∀ cs ∈ p.2,
              (p.1 = "random" ∨ p.1 = "first" ∨ p.1 = "shortest"
                  ∨ p.1 = "smallest" ∨ p.1 = "low_mem" ∨ p.1 = "low_mem_ops")
                ∧ (cs = "random" ∨ cs = "high_gflops" ∨ cs = "high_cores"
                    ∨ cs = "high_mem" ∨ cs = "high_mem_bw"
                    ∨ cs = "low_power")))
      ∧ "low_mem_ops" ∈ job_selections.map Prod.fst
      ∧ "low_mem_bw" ∉ job_selections.map Prod.fst := by
  refine ⟨?_, by decide, by decide⟩
  rw [envInit_isOk_iff]
  constructor
  · rintro ⟨hacts, hobj⟩
    constructor
    · have hmem := (lookupKey_isOk objective_to_reward cfg.objective).mp hobj
      simpa [objective_to_reward] using hmem
    · intro ac hac p hp cs hcs
      have hb := (buildPairs_isOk ac.selection).mp (hacts ac hac) p hp cs hcs
      exact ⟨by simpa [job_selections] using hb.1,
        by simpa [core_selections] using hb.2⟩
  · rintro ⟨hobj, hsel⟩
    constructor
    · intro ac hac
      apply (buildPairs_isOk ac.selection).mpr
      intro p hp cs hcs
      obtain ⟨h1, h2⟩ := hsel ac hac p hp cs hcs
      exact ⟨by simpa [job_selections] using h1,
        by simpa [core_selections] using h2⟩
    · apply (lookupKey_isOk objective_to_reward cfg.objective).mpr
      simpa [objective_to_reward] using hobj

/-- C9 witness: a configuration selecting objective `edp` and the pairs
(first, random) and (first, low_power) is accepted. -/
theorem C9_construction_validation_witness :
    (envInit cfgSel [] limitsEx).isOk = true := by
  refine ((C9_construction_validation cfgSel [] limitsEx).1).mpr ⟨?_, ?_⟩
  · right
    right
    rfl
  · intro ac hac
    have hac' : ac = (⟨[("first", ["random", "low_power"])], false⟩ : ActionsConfig) := by
      simp [cfgSel] at hac
      exact hac.symm
    rw [hac']
    decide

/-- C10: immediately after construction `last_job_queue_length` is 0
regardless of the pending queue seen by the single sizing call to the
observation builder (the final assignment of `__init__` overwrites the
length that call recorded, and its result fixes the observation size at 21);
every subsequent observation build records the pending-job count it
observed; and the first post-construction observation's final entry is
exactly 1 for every queue size. -/
theorem C10_queue_lifecycle (cfg : EnvConfig) (pending : List Job)
    (limits : JobLimits) (env : Env)
    (henv : envInit cfg pending limits = .ok env) :
    env.last_job_queue_length = some 0
      ∧ env.observation_size = 21
      ∧ (∀ (e : Env) (pending2 : List Job) (limits2 : JobLimits),
          ((buildObservation e pending2 limits2).2).last_job_queue_length
            = some pending2.length)
      ∧ (∀ (pending2 : List Job) (limits2 : JobLimits),
          (buildObservation env pending2 limits2).1.getLast? = some 1) := by
  obtain ⟨-, hlast, -, -, hsize, -, -⟩ := envInit_ok_fields henv
  refine ⟨hlast, hsize, fun e pending2 limits2 => rfl, ?_⟩
  intro pending2 limits2
  unfold buildObservation
  rw [hlast]
  rw [base_observation_getLast_some]
  simp

/-- C10 witness: constructing from the default configuration with a one-job
queue still yields recorded length 0, the next build records length 1, and
its final entry is 1. -/
theorem C10_queue_lifecycle_witness :
    envEx.last_job_queue_length = some 0
      ∧ envEx.observation_size = 21
      ∧ ((buildObservation envEx [jobEx] limitsEx).2).last_job_queue_length
          = some 1
      ∧ (buildObservation envEx [jobEx] limitsEx).1.getLast? = some 1 := by
  have h := C10_queue_lifecycle cfgEx [jobEx] limitsEx envEx (by rfl)
  exact ⟨h.1, h.2.1, h.2.2.1 envEx [jobEx] limitsEx, h.2.2.2 [jobEx] limitsEx⟩

end IRMaSim
